import Mathlib

/-!
Shallow embedding of the docgen repository's canonical variant (`wat.py`):
a documentation generator that renders function/class stubs and docstrings
to markdown, extracts `@todo` annotation lines into a checklist, and
promotes `@prop`-marked method docstrings into the owning class body.

Strings are modelled as `List Char` (`Str`); Python text operations used by
the source (`str.lower`, substring membership via `in`, `str.replace`,
`str.strip`, `str.splitlines`, `'\n'.join`, `re.sub` with `MULTILINE`) are
given explicit executable definitions.  Newlines are modelled as `'\n'`
(the source only ever joins and splits on `'\n'`).
-/

/-- Text, modelled as a list of characters. -/
abbrev Str := List Char

/-- Boolean list-prefix test (chars compared with `==`). -/
def prefB : Str → Str → Bool
  | [], _ => true
  | _ :: _, [] => false
  | a :: as, b :: bs => a == b && prefB as bs

/-- Boolean substring test: models Python `pat in s`. -/
def containsSub (pat : Str) : Str → Bool
  | [] => prefB pat []
  | c :: rest => prefB pat (c :: rest) || containsSub pat rest

/-- Python `s.lower()`, per character. -/
def lowerL (s : Str) : Str := s.map Char.toLower

/-- The TODO marker substring searched for by the source: `'@todo'`. -/
def todoMark : Str := "@todo".toList

/-- The PROPERTY marker substring searched for by the source: `'@prop'`. -/
def propMark : Str := "@prop".toList

/-- Models `'@todo' in line.lower()` (wat.py lines 84, 100, 132). -/
def hasTodo (line : Str) : Bool := containsSub todoMark (lowerL line)

/-- The annotation filter loop shared by `parse_func`, `parse_class` and
`gendoc` (wat.py lines 83–87): a line containing the TODO marker
case-insensitively becomes the annotation `(lineno, line)`, any other line
stays in the body; both outputs keep traversal order. -/
def todoFilter (lineno : Nat) : List Str → List (Nat × Str) × List Str
  | [] => ([], [])
  | l :: ls =>
    let (ts, ds) := todoFilter lineno ls
    if hasTodo l then ((lineno, l) :: ts, ds) else (ts, l :: ds)

/-- Models `'@prop' in s.lower()` (wat.py line 108). -/
def hasProp (s : Str) : Bool := containsSub propMark (lowerL s)

/-- Python `s.replace(pat, '')`, scanning left to right and deleting
non-overlapping occurrences of `pat`; `skip` counts characters still to be
consumed silently as the tail of a match already recognised (an empty
pattern deletes nothing when the replacement is empty, matching CPython).
-/
def replDelA (pat : Str) : Str → Nat → Str
  | [], _ => []
  | _ :: rest, skip + 1 => replDelA pat rest skip
  | c :: rest, 0 =>
    match pat with
    | [] => c :: replDelA pat rest 0
    | p :: ps =>
      if p == c && prefB ps rest then replDelA pat rest ps.length
      else c :: replDelA pat rest 0

/-- Python `s.replace(pat, '')`. -/
def replDel (pat : Str) (s : Str) : Str := replDelA pat s 0

/-- Python whitespace characters stripped by `str.strip()` (ASCII range). -/
def isPyWs (c : Char) : Bool :=
  c == ' ' || c == '\t' || c == '\n' || c == '\r' || c == '\x0b' || c == '\x0c'

/-- Python `s.strip()`: drop leading and trailing whitespace. -/
def pyStrip (s : Str) : Str :=
  ((s.dropWhile isPyWs).reverse.dropWhile isPyWs).reverse

/-- Models `methoddoc['doc'].replace('@prop', '').strip()` (wat.py line 109):
delete every occurrence of the literal lowercase token and trim. -/
def cleanProp (s : Str) : Str := pyStrip (replDel propMark s)

/-- Python `s.splitlines()` for LF newlines: `''` gives `[]`, and a trailing
newline produces no trailing empty line. -/
def splitlines : Str → List Str
  | [] => []
  | c :: rest =>
    if c = '\n' then [] :: splitlines rest
    else
      match splitlines rest with
      | [] => [[c]]
      | l :: ls => (c :: l) :: ls

/-- Split on `'\n'` keeping all fields (so `''` gives `['']`); this is the
line decomposition over which `re.sub(..., flags=re.MULTILINE)` acts, since
`^` matches at the start and after each newline and the pattern `#+ ?`
never crosses a newline. -/
def splitOnNl : Str → List Str
  | [] => [[]]
  | c :: rest =>
    if c = '\n' then [] :: splitOnNl rest
    else
      match splitOnNl rest with
      | [] => [[c]]
      | l :: ls => (c :: l) :: ls

/-- Python `sep.join(parts)`. -/
def pyJoin (sep : Str) : List Str → Str
  | [] => []
  | [l] => l
  | l :: ls => l ++ sep ++ pyJoin sep ls

/-- Drop one leading space if present: the `" ?"` part of the heading
pattern consumes at most one space after the hashes. -/
def stripOneSpace (s : Str) : Str :=
  if prefB [' '] s then s.drop 1 else s

/-- Per-line action of `re.sub(r'^#+ ?', '#### ', docstring)` (wat.py line
37): when the line starts with `'#'`, its maximal leading run of `'#'`
plus at most one following space is replaced by the fixed `'#### '`
marker; other lines pass unchanged. -/
def fmtLine (l : Str) : Str :=
  if prefB ['#'] l then
    ("#### ".toList) ++ stripOneSpace (l.dropWhile (fun c => c == '#'))
  else l

/-- `format_docstring` (wat.py lines 29–39): a present docstring has each
line's leading heading run rewritten to `'#### '`; an absent (non-string)
docstring yields the empty string. -/
def format_docstring (docstring : Option Str) : Str :=
  match docstring with
  | some s => pyJoin ['\n'] ((splitOnNl s).map fmtLine)
  | none => []

/-- A function (or method) declaration as delivered by the `ast` parser
collaborator: name, ordered argument names, source line, optional raw
docstring. -/
structure FuncDef where
  name : Str
  args : List Str
  lineno : Nat
  docstring : Option Str
deriving DecidableEq, Repr

/-- A statement inside a class body: a method (`ast.FunctionDef`) or
anything else, which `parse_class` ignores. -/
inductive CStmt where
  | meth (f : FuncDef)
  | other
deriving DecidableEq, Repr

/-- A class declaration: name, base expressions (`some id` for a plain
identifier, `none` when `getattr(n, 'id', 'unnamed')` falls back to the
placeholder), source line, optional docstring, ordered body statements. -/
structure ClassDef where
  name : Str
  bases : List (Option Str)
  lineno : Nat
  docstring : Option Str
  body : List CStmt
deriving DecidableEq, Repr

/-- A top-level statement of a module: function, class, or other. -/
inductive Stmt where
  | func (f : FuncDef)
  | cls (c : ClassDef)
  | other
deriving DecidableEq, Repr

/-- A parsed module: optional module docstring plus ordered top-level
statements. -/
structure ModuleDef where
  docstring : Option Str
  body : List Stmt
deriving DecidableEq, Repr

/-- `func_stub` (wat.py lines 56–67): `def` + backtick + name + `(` +
arguments joined with `', '` + `)` + backtick + `:`. -/
def func_stub (fn : FuncDef) : Str :=
  let stub := ("def `".toList) ++ fn.name ++ [ '(' ]
  let stub := stub ++ pyJoin (", ".toList) fn.args
  stub ++ (")`:".toList)

/-- `class_stub` (wat.py lines 42–53): backtick + `class ` + name, then the
base list in parentheses joined with `', '` only when non-empty, with an
unresolvable base rendered as the placeholder `'unnamed'`, then backtick
and `:`. -/
def class_stub (c : ClassDef) : Str :=
  let stub := ("`class ".toList) ++ c.name
  let bases := c.bases.map (fun b => b.getD ("unnamed".toList))
  let stub := if bases.isEmpty then stub
    else stub ++ [ '(' ] ++ pyJoin (", ".toList) bases ++ [ ')' ]
  stub ++ ("`:".toList)

/-- The `{'doc': ..., 'todos': ...}` dictionary returned by `parse_func`
and `parse_class`. -/
structure DocDict where
  doc : Str
  todos : List (Nat × Str)
deriving DecidableEq, Repr

/-- `parse_func` (wat.py lines 70–90): heading marker of `indents` hashes
plus the stub, docstring normalized and split into lines, TODO lines
extracted, remaining lines joined below the stub. -/
def parse_func (fn : FuncDef) (indents : Nat) : DocDict :=
  let stub := List.replicate indents '#' ++ func_stub fn
  let rawdoc := splitlines (format_docstring fn.docstring)
  let p := todoFilter fn.lineno rawdoc
  { doc := stub ++ ( '\n' :: pyJoin ['\n'] p.2), todos := p.1 }

/-- The method loop of `parse_class` (wat.py lines 106–112), with the
accumulated `todos` and `clsdoc` lists threaded through: a method whose
rendered text contains the PROPERTY marker case-insensitively is promoted
(its `cleanProp`-cleaned text appended to the class doc), otherwise its
full text is appended to the method list; its TODO annotations are
collected either way.  Returns `(todos, clsdoc, methoddocs)`. -/
def classFold (todos : List (Nat × Str)) (clsdoc : List Str) :
    List FuncDef → List (Nat × Str) × List Str × List Str
  | [] => (todos, clsdoc, [])
  | m :: ms =>
    let md := parse_func m 2
    if hasProp md.doc then
      classFold (todos ++ md.todos) (clsdoc ++ [cleanProp md.doc]) ms
    else
      let (ts, cd, mds) := classFold (todos ++ md.todos) clsdoc ms
      (ts, cd, md.doc :: mds)

/-- `parse_class` (wat.py lines 93–114): class stub, own docstring
normalized and TODO-filtered, then each method in body order handled by
`classFold`; the class text joins title, class doc lines and method
blocks. -/
def parse_class (c : ClassDef) : DocDict :=
  let title := class_stub c
  let rawdoc := splitlines (format_docstring c.docstring)
  let p := todoFilter c.lineno rawdoc
  let methods := c.body.filterMap (fun s => match s with
    | CStmt.meth f => some f
    | CStmt.other => none)
  let r := classFold p.1 p.2 methods
  { doc := pyJoin ['\n']
      [title, pyJoin ['\n'] r.2.1, pyJoin ['\n'] r.2.2],
    todos := r.1 }

/-- A consolidated checklist entry `(file, lineno, text)` as built by
`gendoc` (wat.py lines 133 and 153). -/
abbrev Todo := Str × Nat × Str

/-- The file-level filter loop of `gendoc` (wat.py lines 131–135): a TODO
line of the module docstring becomes the annotation `(f, 0, line)`. -/
def fileTodoLoop (f : Str) : List Str → List Todo × List Str
  | [] => ([], [])
  | l :: ls =>
    let (ts, ds) := fileTodoLoop f ls
    if hasTodo l then ((f, 0, l) :: ts, ds) else (ts, l :: ds)

/-- The top-level function loop of `gendoc` (wat.py lines 141–145):
collects each function's rendered text and extends the raw todo list. -/
def funcLoop : List FuncDef → List Str × List (Nat × Str)
  | [] => ([], [])
  | fn :: rest =>
    let d := parse_func fn 2
    let (docs, ts) := funcLoop rest
    (d.doc :: docs, d.todos ++ ts)

/-- The top-level class loop of `gendoc` (wat.py lines 147–151). -/
def classLoop : List ClassDef → List Str × List (Nat × Str)
  | [] => ([], [])
  | c :: rest =>
    let d := parse_class c
    let (docs, ts) := classLoop rest
    (d.doc :: docs, d.todos ++ ts)

/-- A lowercase hexadecimal digit, for CPython's `\xNN` escapes. -/
def hexDigit (n : Nat) : Char :=
  if n < 10 then Char.ofNat (48 + n) else Char.ofNat (87 + n)

/-- The quote character CPython `repr` picks for a string: a single quote,
unless the string contains one and no double quote. -/
def pyReprQuote (s : Str) : Char :=
  if s.contains '\'' && !(s.contains '"') then '"' else '\''

/-- CPython `repr` escaping of one character given the enclosing quote
(ASCII fragment: backslash, the quote, newline/return/tab, and other
control characters as `\xNN`; printable characters pass verbatim). -/
def pyEscChar (q : Char) (c : Char) : Str :=
  if c = '\\' then [ '\\', '\\' ]
  else if c = q then [ '\\', q]
  else if c = '\n' then [ '\\', 'n' ]
  else if c = '\r' then [ '\\', 'r' ]
  else if c = '\t' then [ '\\', 't' ]
  else if c.toNat < 32 || c.toNat = 127 then
    [ '\\', 'x', hexDigit (c.toNat / 16), hexDigit (c.toNat % 16) ]
  else [c]

/-- CPython `repr` of a `str` (ASCII fragment). -/
def pyRepr (s : Str) : Str :=
  let q := pyReprQuote s
  q :: (s.map (pyEscChar q)).flatten ++ [q]

/-- Decimal digits of a natural number, modelling CPython `str(int)`. -/
def natRepr (n : Nat) : Str := Nat.toDigits 10 n

/-- CPython `str(...)` of the checklist tuple `(f, lineno, line)`. -/
def pyStrTodo (t : Todo) : Str :=
  '(' :: pyRepr t.1 ++ (", ".toList) ++ natRepr t.2.1
    ++ (", ".toList) ++ pyRepr t.2.2 ++ [ ')' ]

/-- One checklist line: `'- [ ] ' + str(todo)` (wat.py line 157). -/
def renderTodo (t : Todo) : Str := ("- [ ] ".toList) ++ pyStrTodo t

/-- The intermediate values of `gendoc` (wat.py lines 117–160) for one
module, keeping each local of the source as a field. -/
structure GenParts where
  fstub : Str
  fdoc : List Str
  todos : List Todo
  finaltodos : List Str
  funcdocs : List Str
  classdocs : List Str
deriving DecidableEq, Repr

/-- The body of `gendoc` after the file has been read and parsed, with `f`
the already-`strip('./')`-ed name: module docstring normalized, split and
TODO-filtered; top-level statements filtered to functions and classes;
both loops run; raw todos prefixed with the filename and appended after
the file-level todos; every todo rendered as a checkbox line. -/
def gendocParts (f : Str) (node : ModuleDef) : GenParts :=
  let fstub := ("# `".toList) ++ f ++ [ '`' ]
  let rawdoc := splitlines (format_docstring node.docstring)
  let fp := fileTodoLoop f rawdoc
  let functions := node.body.filterMap (fun s => match s with
    | Stmt.func fn => some fn
    | _ => none)
  let classes := node.body.filterMap (fun s => match s with
    | Stmt.cls c => some c
    | _ => none)
  let fl := funcLoop functions
  let cl := classLoop classes
  let rawtodos := (fl.2 ++ cl.2).map (fun t => (f, t))
  let todos := fp.1 ++ rawtodos
  let finaltodos := todos.map renderTodo
  { fstub := fstub, fdoc := fp.2, todos := todos, finaltodos := finaltodos,
    funcdocs := fl.1, classdocs := cl.1 }

/-- The document text `gendoc` returns (wat.py line 159):
`'\n\n'.join([fstub, *fdoc, *finaltodos, *funcdocs, *classdocs])`. -/
def gendocBody (f : Str) (node : ModuleDef) : Str :=
  let p := gendocParts f node
  pyJoin ("\n\n".toList)
    ([p.fstub] ++ p.fdoc ++ p.finaltodos ++ p.funcdocs ++ p.classdocs)

/-- `'.'` or `'/'`, the characters of `f.strip('./')` (wat.py line 123). -/
def isDotSlash (c : Char) : Bool := c == '.' || c == '/'

/-- Python `f.strip('./')`: drop any leading and trailing `'.'`/`'/'`. -/
def pyStripDotSlash (s : Str) : Str :=
  ((s.dropWhile isDotSlash).reverse.dropWhile isDotSlash).reverse

/-- `gendoc` (wat.py lines 117–160) as seen by `main`, with reading and
parsing modelled by an environment `env` mapping a (stripped) path to the
parsed module when the file can be read and parsed, `none` otherwise; an
unreadable or unparsable file raises, modelled as `Except.error` carrying
the failing (stripped) path. -/
def gendocE (env : Str → Option ModuleDef) (f : Str) : Except Str Str :=
  let f' := pyStripDotSlash f
  match env f' with
  | none => Except.error f'
  | some node => Except.ok (gendocBody f' node)

/-- The document `gendocE` produces when it succeeds (deterministic in the
environment and path). -/
def gendocD (env : Str → Option ModuleDef) (f : Str) : Str :=
  match gendocE env f with
  | Except.ok d => d
  | Except.error _ => []

/-- Python dict assignment `docs[f] = v` on an insertion-ordered
association list: an existing key keeps its position and has its value
replaced; a new key is appended. -/
def dictInsert (d : List (Str × Str)) (k : Str) (v : Str) : List (Str × Str) :=
  if d.any (fun p => p.1 == k) then
    d.map (fun p => if p.1 == k then (k, v) else p)
  else d ++ [(k, v)]

/-- The first loop of `main` (wat.py lines 170–171): generate each file's
document into the `docs` dict, aborting the whole run on the first file
that fails. -/
def buildDocs (env : Str → Option ModuleDef) :
    List Str → List (Str × Str) → Except Str (List (Str × Str))
  | [], docs => Except.ok docs
  | f :: fs, docs =>
    match gendocE env f with
    | Except.error e => Except.error e
    | Except.ok d => buildDocs env fs (dictInsert docs f d)

namespace wat

/-- `main` (wat.py lines 163–173): build the per-file dict, then print the
values in dict order; the printed sequence is modelled as the `Except.ok`
payload, so an aborted run emits nothing. -/
def main (env : Str → Option ModuleDef) (files : List Str) :
    Except Str (List Str) :=
  match buildDocs env files [] with
  | Except.error e => Except.error e
  | Except.ok docs => Except.ok (docs.map (fun p => p.2))

end wat

/-- First-occurrence deduplication with the already-seen keys threaded
through: the key order a Python dict ends up with after inserting every
element of the list in turn, starting from keys `seen`. -/
def dedupFirstAux (seen : List Str) : List Str → List Str
  | [] => []
  | f :: fs =>
    if f ∈ seen then dedupFirstAux seen fs
    else f :: dedupFirstAux (seen ++ [f]) fs

/-- First-occurrence deduplication of a path list: the key order a Python
dict ends up with after inserting every element in turn. -/
def dedupFirst (files : List Str) : List Str := dedupFirstAux [] files

/-- A printable ASCII character that CPython `repr` renders verbatim under
either quote: not a quote, not a backslash, not a control character. -/
def plainChar (c : Char) : Bool :=
  32 ≤ c.toNat && c.toNat ≤ 126 && !(c == '\'') && !(c == '"') && !(c == '\\')

/-! ## Characterizations of the extraction loops -/

lemma todoFilter_eq (ln : Nat) (lines : List Str) :
    todoFilter ln lines =
      ((lines.filter hasTodo).map (fun l => (ln, l)),
       lines.filter (fun l => !(hasTodo l))) := by
  induction lines with
  | nil => rfl
  | cons l ls ih =>
    simp only [todoFilter, ih]
    cases h : hasTodo l <;> simp [List.filter_cons, h]

lemma fileTodoLoop_eq (f : Str) (lines : List Str) :
    fileTodoLoop f lines =
      ((lines.filter hasTodo).map (fun l => (f, 0, l)),
       lines.filter (fun l => !(hasTodo l))) := by
  induction lines with
  | nil => rfl
  | cons l ls ih =>
    simp only [fileTodoLoop, ih]
    cases h : hasTodo l <;> simp [List.filter_cons, h]

lemma funcLoop_eq (fns : List FuncDef) :
    funcLoop fns =
      (fns.map (fun fn => (parse_func fn 2).doc),
       fns.flatMap (fun fn => (parse_func fn 2).todos)) := by
  induction fns with
  | nil => rfl
  | cons fn rest ih => simp [funcLoop, ih]

lemma classLoop_eq (cs : List ClassDef) :
    classLoop cs =
      (cs.map (fun c => (parse_class c).doc),
       cs.flatMap (fun c => (parse_class c).todos)) := by
  induction cs with
  | nil => rfl
  | cons c rest ih => simp [classLoop, ih]

lemma classFold_eq (ts : List (Nat × Str)) (cd : List Str) (ms : List FuncDef) :
    classFold ts cd ms =
      (ts ++ ms.flatMap (fun m => (parse_func m 2).todos),
       cd ++ (ms.filter (fun m => hasProp (parse_func m 2).doc)).map
              (fun m => cleanProp (parse_func m 2).doc),
       (ms.filter (fun m => !(hasProp (parse_func m 2).doc))).map
         (fun m => (parse_func m 2).doc)) := by
  induction ms generalizing ts cd with
  | nil => simp [classFold]
  | cons m ms ih =>
    simp only [classFold]
    cases h : hasProp (parse_func m 2).doc <;>
      simp [h, ih, List.filter_cons]

lemma length_filter_split {α : Type} (p : α → Bool) (l : List α) :
    l.length = (l.filter p).length + (l.filter (fun a => !(p a))).length := by
  induction l with
  | nil => rfl
  | cons a l ih =>
    cases h : p a <;> simp [List.filter_cons, h, ih] <;> omega

/-- Claim C1: for a normalized docstring whose lines contain the TODO
marker case-insensitively in exactly `m` positions, the filter loop of
`parse_func` returns exactly those `m` lines as annotations — each
carrying the declaration's line number together with the full original
line verbatim — and the remaining `k - m` lines as the body, both being
the order-preserving selections of the input lines (so relative order is
kept and the annotation count is `m`, the body count `k - m`). -/
theorem todoFilter_splits_lines (ln : Nat) (lines : List Str) :
    todoFilter ln lines =
      ((lines.filter hasTodo).map (fun l => (ln, l)),
       lines.filter (fun l => !(hasTodo l)))
    ∧ (todoFilter ln lines).1.length = lines.countP hasTodo
    ∧ (todoFilter ln lines).2.length = lines.length - lines.countP hasTodo := by
  refine ⟨todoFilter_eq ln lines, ?_, ?_⟩ <;> rw [todoFilter_eq] <;>
    simp only [List.countP_eq_length_filter, List.length_map]
  have h := length_filter_split hasTodo lines
  omega

/-! ## Idempotence of the docstring normalizer -/

lemma splitOnNl_ne_nil (s : Str) : splitOnNl s ≠ [] := by
  cases s with
  | nil => simp [splitOnNl]
  | cons c rest =>
    simp only [splitOnNl]
    split
    · simp
    · split <;> simp

lemma mem_splitOnNl (s : Str) : ∀ l ∈ splitOnNl s, '\n' ∉ l := by
  induction s with
  | nil =>
    intro l hl
    simp only [splitOnNl, List.mem_singleton] at hl
    subst hl; simp
  | cons c rest ih =>
    intro l hl
    simp only [splitOnNl] at hl
    by_cases h : c = '\n'
    · rw [if_pos h] at hl
      rcases List.mem_cons.mp hl with h1 | h1
      · subst h1; simp
      · exact ih l h1
    · rw [if_neg h] at hl
      rcases h2 : splitOnNl rest with _ | ⟨p, ps⟩
      · rw [h2] at hl
        rcases List.mem_cons.mp hl with h1 | h1
        · subst h1
          intro hm
          rcases List.mem_singleton.mp hm with rfl
          exact h rfl
        · simp at h1
      · rw [h2] at hl
        rcases List.mem_cons.mp hl with h1 | h1
        · subst h1
          have hp : '\n' ∉ p := ih p (by rw [h2]; exact List.mem_cons_self _ _)
          intro hm
          rcases List.mem_cons.mp hm with h3 | h3
          · exact h h3.symm
          · exact hp h3
        · exact ih l (by rw [h2]; exact List.mem_cons_of_mem _ h1)

lemma splitOnNl_no_nl {p : Str} (h : '\n' ∉ p) : splitOnNl p = [p] := by
  induction p with
  | nil => rfl
  | cons c rest ih =>
    have hc : ¬(c = '\n') := fun e => h (by rw [e]; exact List.mem_cons_self _ _)
    have hr : '\n' ∉ rest := fun hh => h (List.mem_cons_of_mem _ hh)
    simp only [splitOnNl, if_neg hc, ih hr]

lemma splitOnNl_append {p t : Str} (h : '\n' ∉ p) :
    splitOnNl (p ++ '\n' :: t) = p :: splitOnNl t := by
  induction p with
  | nil => simp [splitOnNl]
  | cons c rest ih =>
    have hc : ¬(c = '\n') := fun e => h (by rw [e]; exact List.mem_cons_self _ _)
    have hr : '\n' ∉ rest := fun hh => h (List.mem_cons_of_mem _ hh)
    simp only [List.cons_append, splitOnNl, if_neg hc]
    have hx : splitOnNl (rest.append ( '\n' :: t)) = rest :: splitOnNl t := ih hr
    rw [hx]

lemma splitOnNl_pyJoin (parts : List Str) (hne : parts ≠ [])
    (h : ∀ l ∈ parts, '\n' ∉ l) :
    splitOnNl (pyJoin ['\n'] parts) = parts := by
  induction parts with
  | nil => cases hne rfl
  | cons p ps ih =>
    cases ps with
    | nil => exact splitOnNl_no_nl (h p (List.mem_singleton.mpr rfl))
    | cons q qs =>
      have hj : pyJoin ['\n'] (p :: q :: qs) = p ++ '\n' :: pyJoin ['\n'] (q :: qs) := by
        simp [pyJoin]
      rw [hj, splitOnNl_append (h p (List.mem_cons_self _ _)),
        ih (by simp) (fun l hl => h l (List.mem_cons_of_mem _ hl))]

lemma fmtLine_no_nl {l : Str} (h : '\n' ∉ l) : '\n' ∉ fmtLine l := by
  unfold fmtLine
  split
  · intro hm
    rcases List.mem_append.mp hm with hm | hm
    · exact absurd hm (by decide)
    · have h2 : '\n' ∈ l.dropWhile (fun c => c == '#') := by
        unfold stripOneSpace at hm
        split at hm
        · exact List.mem_of_mem_drop hm
        · exact hm
      exact h ((List.dropWhile_sublist _).mem h2)
  · exact h

lemma fmtLine_idem (l : Str) : fmtLine (fmtLine l) = fmtLine l := by
  by_cases h : prefB ['#'] l = true
  · have hmark : ("#### ".toList) = ['#', '#', '#', '#', ' '] := rfl
    have h1 : fmtLine l =
        ("#### ".toList) ++ stripOneSpace (l.dropWhile (fun c => c == '#')) := by
      rw [fmtLine, if_pos h]
    rw [h1]
    set r := stripOneSpace (l.dropWhile (fun c => c == '#')) with hr
    rw [hmark]
    have h2 : prefB ['#'] (['#', '#', '#', '#', ' '] ++ r) = true := by
      simp [prefB]
    have h3 : (['#', '#', '#', '#', ' '] ++ r).dropWhile (fun c => c == '#')
        = ' ' :: r := by
      simp [List.dropWhile_cons]
    rw [fmtLine, if_pos h2, h3]
    have h4 : stripOneSpace ( ' ' :: r) = r := by
      simp [stripOneSpace, prefB]
    rw [h4, hmark]
  · have h1 : fmtLine l = l := by rw [fmtLine, if_neg h]
    rw [h1, h1]

/-- Claim C5: the docstring normalizer is idempotent — re-normalizing an
already-normalized docstring (fed back in as a present string) yields the
same text, for every input, absent inputs included. -/
theorem format_docstring_idem (d : Option Str) :
    format_docstring (some (format_docstring d)) = format_docstring d := by
  have key : ∀ s : Str,
      pyJoin ['\n'] ((splitOnNl (pyJoin ['\n'] ((splitOnNl s).map fmtLine))).map fmtLine)
        = pyJoin ['\n'] ((splitOnNl s).map fmtLine) := by
    intro s
    have hne : (splitOnNl s).map fmtLine ≠ [] := by
      intro hmap
      exact splitOnNl_ne_nil s (List.map_eq_nil_iff.mp hmap)
    have hnl : ∀ l ∈ (splitOnNl s).map fmtLine, '\n' ∉ l := by
      intro l hl
      rcases List.mem_map.mp hl with ⟨p, hp, rfl⟩
      exact fmtLine_no_nl (mem_splitOnNl s p hp)
    rw [splitOnNl_pyJoin _ hne hnl, List.map_map]
    congr 1
    exact List.map_congr_left (fun p _ => fmtLine_idem p)
  cases d with
  | none => rfl
  | some s => simpa [format_docstring] using key s

/-! ## Stub rendering and absent docstrings -/

/-- Claim C8: an absent (non-string) docstring normalizes to the empty
string — never a missing value and never an error — so a declaration with
no docstring still renders: its `parse_func` text is the heading-prefixed
stub above an empty body, and it contributes no annotations. -/
theorem format_docstring_absent (nm : Str) (args : List Str) (ln : Nat) :
    format_docstring none = []
    ∧ (parse_func ⟨nm, args, ln, none⟩ 2).doc
        = ( '#' :: '#' :: func_stub ⟨nm, args, ln, none⟩) ++ [ '\n' ]
    ∧ (parse_func ⟨nm, args, ln, none⟩ 2).todos = [] := by
  refine ⟨rfl, ?_, rfl⟩
  show List.replicate 2 '#' ++ func_stub ⟨nm, args, ln, none⟩
      ++ ( '\n' :: pyJoin ['\n'] (todoFilter ln (splitlines (format_docstring none))).2)
      = _
  simp [todoFilter, splitlines, format_docstring, pyJoin, List.replicate]

/-- Claim C4, counterexample: for the function `add` with parameters
`a, b` the stub renderer emits `def` and a space before the opening
backtick — only `add(a, b)` is wrapped in backticks — so the output is not
the claimed text that wraps the whole `def add(a, b)` phrase. -/
theorem func_stub_backtick_after_def :
    func_stub ⟨("add".toList), [("a".toList), ("b".toList)], 1, none⟩
        = ("def `add(a, b)`:".toList)
    ∧ func_stub ⟨("add".toList), [("a".toList), ("b".toList)], 1, none⟩
        ≠ ("`def add(a, b)`:".toList) := by
  exact ⟨by decide, by decide⟩

/-- Claim C4 (amended): for every function declaration named `name` with
parameters `p1, ..., pn` the stub renderer produces exactly the text
`def` + space + backtick + `name(p1, ..., pn)` + backtick + `:` — the
backticks wrap only `name(...)`, not the leading `def ` — with parameters
joined by `", "`, and an empty parameter list rendering as `()`. -/
theorem func_stub_renders (nm : Str) (args : List Str) (ln : Nat)
    (d : Option Str) :
    func_stub ⟨nm, args, ln, d⟩
        = ("def `".toList) ++ nm ++ [ '(' ]
          ++ pyJoin (", ".toList) args ++ (")`:".toList)
    ∧ func_stub ⟨nm, [], ln, d⟩ = ("def `".toList) ++ nm ++ ("()`:".toList) := by
  constructor
  · simp [func_stub]
  · simp [func_stub, pyJoin]

/-- Claim C7: every class stub renders as backtick + `class Name` with the
base list `(B1, B2, ...)` joined by `", "`, the parenthesized list omitted
entirely when there are no bases, and a base expression that does not
resolve to a simple identifier rendered as the fixed placeholder `unnamed`
rather than raising. -/
theorem class_stub_renders (c : ClassDef) :
    class_stub c
      = ("`class ".toList) ++ c.name
        ++ (if c.bases = [] then []
            else [ '(' ] ++ pyJoin (", ".toList)
                (c.bases.map (fun b => b.getD ("unnamed".toList))) ++ [ ')' ])
        ++ ("`:".toList) := by
  rcases c with ⟨nm, bases, ln, d, body⟩
  cases bases with
  | nil => simp [class_stub]
  | cons b bs => simp [class_stub]

/-! ## Property promotion -/

/-- Claim C2, counterexample: a method whose docstring is the single line
`@PROP` triggers promotion (the check lowercases the text first), but the
strip `replace('@prop', '')` is case-sensitive, so the promoted block
appended to the class body still contains the marker verbatim: the method
block list is empty, yet the promoted text `##def \x60m()\x60:\n@PROP`
retains the PROPERTY marker instead of having it stripped. -/
theorem classFold_keeps_uppercase_marker :
    (classFold [] [] [⟨("m".toList), [], 2, some ("@PROP".toList)⟩]).2.1
        = [("##def `m()`:\n@PROP".toList)]
    ∧ (classFold [] [] [⟨("m".toList), [], 2, some ("@PROP".toList)⟩]).2.2 = []
    ∧ containsSub propMark (lowerL ("##def `m()`:\n@PROP".toList)) = true := by
  exact ⟨by decide, by decide, by decide⟩

/-- Claim C2 (amended): for every class, the method loop promotes exactly
the methods whose rendered (TODO-filtered) text contains the PROPERTY
marker case-insensitively: each such method is absent from the method
block list and its cleaned text — with the occurrences of the literal
lowercase token `@prop` removed (occurrences in any other letter case are
retained) and surrounding whitespace trimmed — is appended to the class
body after the class's own docstring lines, in discovery order; the
remaining methods keep their full blocks in order, and every method's TODO
annotations are collected into the class annotation list (after the
class's own) regardless of promotion, `(parse_class c).todos` being their
in-order concatenation. -/
theorem parse_class_promotion (c : ClassDef) :
    (parse_class c).todos
      = (todoFilter c.lineno (splitlines (format_docstring c.docstring))).1
        ++ (c.body.filterMap (fun s => match s with
              | CStmt.meth f => some f
              | CStmt.other => none)).flatMap (fun m => (parse_func m 2).todos)
    ∧ ∀ (ts : List (Nat × Str)) (cd : List Str) (ms : List FuncDef),
        classFold ts cd ms =
          (ts ++ ms.flatMap (fun m => (parse_func m 2).todos),
           cd ++ (ms.filter (fun m => hasProp (parse_func m 2).doc)).map
                  (fun m => cleanProp (parse_func m 2).doc),
           (ms.filter (fun m => !(hasProp (parse_func m 2).doc))).map
             (fun m => (parse_func m 2).doc)) := by
  constructor
  · show (classFold (todoFilter c.lineno (splitlines (format_docstring c.docstring))).1
        (todoFilter c.lineno (splitlines (format_docstring c.docstring))).2
        (c.body.filterMap (fun s => match s with
          | CStmt.meth f => some f
          | CStmt.other => none))).1 = _
    rw [classFold_eq]
  · exact classFold_eq

/-! ## Checklist discovery order -/

/-- Claim C3: the consolidated TODO checklist of a source unit lists
annotations in exactly discovery order — the module docstring's TODO lines
first (tagged with line `0`), then each top-level function's annotations
in declaration order, then each class's annotations, where a class's own
docstring annotations precede its methods' and methods appear in
declaration order — as a literal concatenation, with no merging,
deduplication or reordering; the rendered checklist is its one-to-one
image. -/
theorem gendoc_checklist_order (f : Str) (node : ModuleDef) :
    (gendocParts f node).todos
      = ((splitlines (format_docstring node.docstring)).filter hasTodo).map
          (fun l => (f, 0, l))
        ++ ((node.body.filterMap (fun s => match s with
              | Stmt.func fn => some fn
              | _ => none)).flatMap (fun fn => (parse_func fn 2).todos)).map
            (fun t => (f, t))
        ++ ((node.body.filterMap (fun s => match s with
              | Stmt.cls c => some c
              | _ => none)).flatMap (fun c => (parse_class c).todos)).map
            (fun t => (f, t))
    ∧ (∀ c : ClassDef, (parse_class c).todos
        = ((splitlines (format_docstring c.docstring)).filter hasTodo).map
            (fun l => (c.lineno, l))
          ++ (c.body.filterMap (fun s => match s with
                | CStmt.meth m => some m
                | CStmt.other => none)).flatMap (fun m => (parse_func m 2).todos))
    ∧ (∀ fn : FuncDef, (parse_func fn 2).todos
        = ((splitlines (format_docstring fn.docstring)).filter hasTodo).map
            (fun l => (fn.lineno, l)))
    ∧ (gendocParts f node).finaltodos = ((gendocParts f node).todos).map renderTodo := by
  refine ⟨?_, ?_, ?_, rfl⟩
  · show (fileTodoLoop f (splitlines (format_docstring node.docstring))).1
        ++ ((funcLoop (node.body.filterMap (fun s => match s with
              | Stmt.func fn => some fn
              | _ => none))).2
            ++ (classLoop (node.body.filterMap (fun s => match s with
              | Stmt.cls c => some c
              | _ => none))).2).map (fun t => (f, t)) = _
    rw [fileTodoLoop_eq, funcLoop_eq, classLoop_eq]
    simp [List.map_append, List.append_assoc]
  · intro c
    show (classFold (todoFilter c.lineno (splitlines (format_docstring c.docstring))).1
        (todoFilter c.lineno (splitlines (format_docstring c.docstring))).2
        (c.body.filterMap (fun s => match s with
          | CStmt.meth m => some m
          | CStmt.other => none))).1 = _
    rw [classFold_eq, todoFilter_eq]
  · intro fn
    show (todoFilter fn.lineno (splitlines (format_docstring fn.docstring))).1 = _
    rw [todoFilter_eq]

/-! ## Checklist line rendering -/

lemma pyEscChar_plain {c : Char} (h : plainChar c = true) {q : Char}
    (hq : ¬(c = q)) : pyEscChar q c = [c] := by
  simp only [plainChar, Bool.and_eq_true, decide_eq_true_eq, Bool.not_eq_true',
    beq_eq_false_iff_ne, ne_eq] at h
  obtain ⟨⟨⟨⟨h1, h2⟩, h3⟩, h4⟩, h5⟩ := h
  have hn : ¬(c = '\n') := fun e => absurd (e ▸ h1) (by decide)
  have hr : ¬(c = '\r') := fun e => absurd (e ▸ h1) (by decide)
  have ht : ¬(c = '\t') := fun e => absurd (e ▸ h1) (by decide)
  have hlow : ¬(c.toNat < 32) := by omega
  have h127 : ¬(c.toNat = 127) := by omega
  simp [pyEscChar, h5, hq, hn, hr, ht, hlow, h127]

lemma flatten_pyEsc {s : Str} {q : Char} (h : ∀ c ∈ s, plainChar c = true)
    (hne : ∀ c ∈ s, ¬(c = q)) : (s.map (pyEscChar q)).flatten = s := by
  induction s with
  | nil => rfl
  | cons c cs ih =>
    simp only [List.map_cons, List.flatten_cons,
      pyEscChar_plain (h c (List.mem_cons_self _ _)) (hne c (List.mem_cons_self _ _)),
      List.singleton_append, List.cons_append]
    have := ih (fun a ha => h a (List.mem_cons_of_mem _ ha))
      (fun a ha => hne a (List.mem_cons_of_mem _ ha))
    simpa using this

lemma pyRepr_plain {s : Str} (h : ∀ c ∈ s, plainChar c = true) :
    pyRepr s = '\'' :: s ++ [ '\'' ] := by
  have hmem : '\'' ∉ s := by
    intro hm
    have := h _ hm
    simp [plainChar] at this
  have hq : pyReprQuote s = '\'' := by simp [pyReprQuote, hmem]
  rw [pyRepr, hq]
  have hne : ∀ c ∈ s, ¬(c = '\'') := by
    intro a ha e
    subst e
    exact hmem ha
  rw [flatten_pyEsc h hne]

/-- Claim C6, counterexample: the checklist line is `'- [ ] ' + str(todo)`
with `todo` a Python tuple, so the strings are rendered with quotes: a
class docstring line `@todo fix this` at line 5 of file `sample` yields
`- [ ] ('sample', 5, '@todo fix this')` — file and text in single quotes —
and not the claimed `- [ ] (sample, 5, "@todo fix this")`. -/
theorem gendoc_checklist_line_quoting :
    (gendocParts ("sample".toList)
        ⟨none, [Stmt.cls ⟨("Foo".toList), [some ("Base".toList)], 5,
                 some ("@todo fix this".toList), []⟩]⟩).finaltodos
      = [("- [ ] ('sample', 5, '@todo fix this')".toList)]
    ∧ ("- [ ] ('sample', 5, '@todo fix this')".toList)
        ≠ ("- [ ] (sample, 5, \"@todo fix this\")".toList) := by
  exact ⟨by decide, by decide⟩

/-- Claim C6 (amended): every checklist line is `- [ ] ` followed by the
CPython tuple rendering `('file', line, 'text')` — the file and the
original annotation line each wrapped in quotes (single quotes whenever
they contain none themselves), the text verbatim inside the quotes,
marker substring included.  For plain printable annotations the line is
exactly `- [ ] ('` + file + `', ` + line + `, '` + text + `')`. -/
theorem renderTodo_line_format (f : Str) (node : ModuleDef) (fl : Str)
    (n : Nat) (txt : Str)
    (hmem : (fl, n, txt) ∈ (gendocParts f node).todos)
    (hfl : ∀ c ∈ fl, plainChar c = true)
    (htxt : ∀ c ∈ txt, plainChar c = true) :
    renderTodo (fl, n, txt) ∈ (gendocParts f node).finaltodos
    ∧ renderTodo (fl, n, txt)
        = ("- [ ] ('".toList) ++ fl ++ ("', ".toList) ++ natRepr n
          ++ (", '".toList) ++ txt ++ ("')".toList) := by
  constructor
  · exact List.mem_map_of_mem renderTodo hmem
  · rw [renderTodo, pyStrTodo]
    simp only []
    rw [pyRepr_plain hfl, pyRepr_plain htxt]
    have e1 : ("- [ ] ".toList) = ['-', ' ', '[', ' ', ']', ' '] := rfl
    have e2 : ("- [ ] ('".toList) = ['-', ' ', '[', ' ', ']', ' ', '(', '\''] := rfl
    have e3 : ("', ".toList) = ['\'', ',', ' '] := rfl
    have e4 : (", '".toList) = [',', ' ', '\''] := rfl
    have e5 : ("')".toList) = ['\'', ')'] := rfl
    have e6 : (", ".toList) = [',', ' '] := rfl
    rw [e1, e2, e3, e4, e5, e6]
    simp [List.append_assoc]

/-- Concrete instance of the amended checklist-line format: the `sample`
module with class `Foo(Base)` whose docstring line `@todo fix this` sits
at line 5 has that annotation in its checklist, rendered with quoted
strings. -/
theorem renderTodo_line_format_check :
    renderTodo (("sample".toList), 5, ("@todo fix this".toList))
        ∈ (gendocParts ("sample".toList)
            ⟨none, [Stmt.cls ⟨("Foo".toList), [some ("Base".toList)], 5,
                     some ("@todo fix this".toList), []⟩]⟩).finaltodos
    ∧ renderTodo (("sample".toList), 5, ("@todo fix this".toList))
        = ("- [ ] ('sample', 5, '@todo fix this')".toList) := by
  have h := renderTodo_line_format ("sample".toList)
    ⟨none, [Stmt.cls ⟨("Foo".toList), [some ("Base".toList)], 5,
             some ("@todo fix this".toList), []⟩]⟩
    ("sample".toList) 5 ("@todo fix this".toList)
    (by decide) (by decide) (by decide)
  refine ⟨h.1, ?_⟩
  rw [h.2]
  decide

/-! ## The driver: abort on failure, one document per path -/

lemma buildDocs_error (env : Str → Option ModuleDef) :
    ∀ (files : List Str) (d : List (Str × Str)) (f : Str), f ∈ files →
      env (pyStripDotSlash f) = none →
      ∃ g, g ∈ files ∧ env (pyStripDotSlash g) = none ∧
        buildDocs env files d = Except.error (pyStripDotSlash g) := by
  intro files
  induction files with
  | nil =>
    intro d f hf
    simp at hf
  | cons a fs ih =>
    intro d f hf hnone
    by_cases ha : env (pyStripDotSlash a) = none
    · refine ⟨a, List.mem_cons_self _ _, ha, ?_⟩
      simp [buildDocs, gendocE, ha]
    · rcases ho : env (pyStripDotSlash a) with _ | node
      · exact absurd ho ha
      have hstep : buildDocs env (a :: fs) d
          = buildDocs env fs
              (dictInsert d a (gendocBody (pyStripDotSlash a) node)) := by
        simp [buildDocs, gendocE, ho]
      have hf' : f ∈ fs := by
        rcases List.mem_cons.mp hf with heq | h2
        · rw [heq] at hnone; exact absurd hnone ha
        · exact h2
      obtain ⟨g, hg1, hg2, hg3⟩ :=
        ih (dictInsert d a (gendocBody (pyStripDotSlash a) node)) f hf' hnone
      exact ⟨g, List.mem_cons_of_mem _ hg1, hg2, by rw [hstep]; exact hg3⟩

/-- Claim C9: if any file of the input list cannot be read or parsed, the
whole run aborts: `main` returns an error naming (the stripped path of) a
failing file from the list, and the output channel — the success payload —
carries no document at all: none for the failing file, none for later
files, and none for files processed before the failure, since printing
happens only after every file has been generated. -/
theorem main_aborts_on_failure (env : Str → Option ModuleDef)
    (files : List Str) (f : Str) (hf : f ∈ files)
    (hnone : env (pyStripDotSlash f) = none) :
    ∃ g, g ∈ files ∧ env (pyStripDotSlash g) = none
      ∧ wat.main env files = Except.error (pyStripDotSlash g) := by
  obtain ⟨g, h1, h2, h3⟩ := buildDocs_error env files [] f hf hnone
  exact ⟨g, h1, h2, by simp [wat.main, h3]⟩

/-- Concrete instance of the abort behavior: a one-file list whose file is
unreadable makes `main` return an error and no documents. -/
theorem main_aborts_on_failure_check :
    ∃ g, g ∈ [("a".toList)]
      ∧ (fun _ => (none : Option ModuleDef)) (pyStripDotSlash g) = none
      ∧ wat.main (fun _ => none) [("a".toList)]
          = Except.error (pyStripDotSlash g) :=
  main_aborts_on_failure (fun _ => none) [("a".toList)] ("a".toList)
    (List.mem_singleton.mpr rfl) rfl

lemma dictInsert_keys_mem {d : List (Str × Str)} {k : Str} (v : Str)
    (h : k ∈ d.map Prod.fst) :
    (dictInsert d k v).map Prod.fst = d.map Prod.fst := by
  have hany : d.any (fun p => p.1 == k) = true := by
    rw [List.any_eq_true]
    rcases List.mem_map.mp h with ⟨p, hp, hk⟩
    exact ⟨p, hp, by simp [hk]⟩
  rw [dictInsert, if_pos hany, List.map_map]
  apply List.map_congr_left
  intro p _
  by_cases hpk : p.1 = k
  · simp [hpk]
  · simp [hpk]

lemma dictInsert_keys_new {d : List (Str × Str)} {k : Str} (v : Str)
    (h : ¬(k ∈ d.map Prod.fst)) :
    (dictInsert d k v).map Prod.fst = d.map Prod.fst ++ [k] := by
  have hany : d.any (fun p => p.1 == k) = false := by
    rw [List.any_eq_false]
    intro p hp hbeq
    exact h (List.mem_map.mpr ⟨p, hp, by simpa using hbeq⟩)
  rw [dictInsert, if_neg (by simp [hany])]
  simp

lemma dictInsert_vals {g : Str → Str} {d : List (Str × Str)} {k : Str}
    {v : Str} (hd : ∀ p ∈ d, p.2 = g p.1) (hv : v = g k) :
    ∀ p ∈ dictInsert d k v, p.2 = g p.1 := by
  intro p hp
  rw [dictInsert] at hp
  split at hp
  · rcases List.mem_map.mp hp with ⟨q, hq, rfl⟩
    by_cases hqk : q.1 = k
    · simp [hqk, hv]
    · simp only [hqk, beq_iff_eq, if_false, if_neg hqk]
      exact hd q hq
  · rcases List.mem_append.mp hp with hp | hp
    · exact hd p hp
    · rcases List.mem_singleton.mp hp with rfl
      exact hv

lemma buildDocs_ok (env : Str → Option ModuleDef) :
    ∀ (files : List Str) (d : List (Str × Str)),
      (∀ f ∈ files, ¬(env (pyStripDotSlash f) = none)) →
      (∀ p ∈ d, p.2 = gendocD env p.1) →
      ∃ d', buildDocs env files d = Except.ok d'
        ∧ d'.map Prod.fst
            = d.map Prod.fst ++ dedupFirstAux (d.map Prod.fst) files
        ∧ ∀ p ∈ d', p.2 = gendocD env p.1 := by
  intro files
  induction files with
  | nil =>
    intro d _ hd
    exact ⟨d, rfl, by simp [dedupFirstAux], hd⟩
  | cons a fs ih =>
    intro d hfs hd
    have ha := hfs a (List.mem_cons_self _ _)
    rcases ho : env (pyStripDotSlash a) with _ | node
    · exact absurd ho ha
    have hgE : gendocE env a
        = Except.ok (gendocBody (pyStripDotSlash a) node) := by
      simp [gendocE, ho]
    have hgD : gendocD env a = gendocBody (pyStripDotSlash a) node := by
      simp [gendocD, hgE]
    have hstep : buildDocs env (a :: fs) d
        = buildDocs env fs
            (dictInsert d a (gendocBody (pyStripDotSlash a) node)) := by
      simp [buildDocs, hgE]
    obtain ⟨d', h1, h2, h3⟩ :=
      ih (dictInsert d a (gendocBody (pyStripDotSlash a) node))
        (fun f hf => hfs f (List.mem_cons_of_mem _ hf))
        (dictInsert_vals hd hgD.symm)
    refine ⟨d', by rw [hstep]; exact h1, ?_, h3⟩
    rw [h2]
    by_cases hk : a ∈ d.map Prod.fst
    · rw [dictInsert_keys_mem _ hk]
      simp only [dedupFirstAux, if_pos hk]
    · rw [dictInsert_keys_new _ hk]
      simp only [dedupFirstAux, if_neg hk]
      simp [List.append_assoc]

lemma dedupFirstAux_of_disjoint :
    ∀ (l : List Str) (seen : List Str), l.Nodup → (∀ a ∈ l, ¬(a ∈ seen)) →
      dedupFirstAux seen l = l := by
  intro l
  induction l with
  | nil => intro seen _ _; rfl
  | cons a as ih =>
    intro seen hnd hdisj
    simp only [dedupFirstAux, if_neg (hdisj a (List.mem_cons_self _ _))]
    congr 1
    apply ih (seen ++ [a]) (List.Nodup.of_cons hnd)
    intro b hb hmem
    rcases List.mem_append.mp hmem with hmem | hmem
    · exact hdisj b (List.mem_cons_of_mem _ hb) hmem
    · rcases List.mem_singleton.mp hmem with rfl
      exact (List.nodup_cons.mp hnd).1 hb

/-- Claim C10: `main` accumulates per-file documents in a dict keyed by
the file path before printing, so the combined output has exactly one
document per distinct input path, in first-occurrence order, each being
the document generated for that path (generation is deterministic, so the
last write equals every write); for a list of pairwise-distinct paths the
output is one document per path, in input order. -/
theorem main_dedups_by_path (env : Str → Option ModuleDef) (files : List Str)
    (h : ∀ f ∈ files, ¬(env (pyStripDotSlash f) = none)) :
    wat.main env files = Except.ok ((dedupFirst files).map (gendocD env))
    ∧ (files.Nodup →
        wat.main env files = Except.ok (files.map (gendocD env))) := by
  have hmain : wat.main env files
      = Except.ok ((dedupFirst files).map (gendocD env)) := by
    obtain ⟨d', h1, h2, h3⟩ := buildDocs_ok env files [] h (by simp)
    have hkeys : d'.map Prod.fst = dedupFirst files := by
      simpa [dedupFirst] using h2
    have hvals : d'.map (fun p => p.2)
        = (d'.map Prod.fst).map (gendocD env) := by
      rw [List.map_map]
      exact List.map_congr_left (fun p hp => h3 p hp)
    rw [wat.main, h1]
    rw [show (match Except.ok d' with
      | Except.error e => (Except.error e : Except Str (List Str))
      | Except.ok docs => Except.ok (docs.map (fun p => p.2)))
      = Except.ok (d'.map (fun p => p.2)) from rfl]
    rw [hvals, hkeys]
  refine ⟨hmain, fun hnd => ?_⟩
  rw [hmain, dedupFirst, dedupFirstAux_of_disjoint files [] hnd (by simp)]

/-- Concrete instance of the dict deduplication: the same path twice in
the input yields a single document in the output. -/
theorem main_dedups_by_path_check :
    wat.main (fun _ => some ⟨none, []⟩) [("a".toList), ("a".toList)]
      = Except.ok ((dedupFirst [("a".toList), ("a".toList)]).map
          (gendocD (fun _ => some ⟨none, []⟩)))
    ∧ (dedupFirst [("a".toList), ("a".toList)]).map
          (gendocD (fun _ => some ⟨none, []⟩)) = [("# `a`".toList)] := by
  refine ⟨(main_dedups_by_path (fun _ => some ⟨none, []⟩)
    [("a".toList), ("a".toList)] (by decide)).1, by decide⟩
